import Mathlib

/-!
Verification of the heading-extraction core of `process_pdfs.py`.

The Python source is shallowly embedded: strings become `List Char`,
floating-point font sizes become `ℚ`, the regular expressions become
executable Boolean matchers over character lists (prefix-match existence
semantics, as with `re.match`), and the per-document pipeline
`process_pdf_simple` becomes a pure function from the extracted line
sequence and the file base name to the produced outline.

Because the Batteries rational arithmetic operations are irreducible for
the kernel, every executable decision is phrased on `Rat.num` / `Rat.den`
with integer arithmetic only; bridge lemmas relate those decisions to the
ordinary order on `ℚ` for use in specification statements.
-/

/-- Lexicographic strict order on character lists by code point, as Python
compares strings.  `strLt a b` holds when `a` is strictly smaller. -/
def strLt : List Char → List Char → Bool
  | _, [] => false
  | [], _ :: _ => true
  | a :: as, b :: bs =>
    decide (a.toNat < b.toNat) || (decide (a.toNat = b.toNat) && strLt as bs)

/-- Python `str.strip()`: drop whitespace from both ends. -/
def pyTrim (s : List Char) : List Char :=
  ((s.dropWhile Char.isWhitespace).reverse.dropWhile Char.isWhitespace).reverse

/-- Python `str.isupper()` for ASCII text: at least one uppercase letter and
no lowercase letter. -/
def pyIsUpper (s : List Char) : Bool :=
  s.any Char.isUpper && s.all (fun c => !c.isLower)

/-- Python `text.endswith(":")`. -/
def endsColon (s : List Char) : Bool :=
  decide (s.getLast? = some ':')

/-- Python substring containment `needle in haystack`. -/
def containsSub (needle : List Char) : List Char → Bool
  | [] => needle.isEmpty
  | c :: r => needle.isPrefixOf (c :: r) || containsSub needle r

/-- Existence of a prefix match for the regex fragment `\s*.+`
(`.` excludes the newline, as in Python without `re.DOTALL`). -/
def wsStarDotPlus : List Char → Bool
  | [] => false
  | c :: r => decide (c ≠ '\n') || (c.isWhitespace && wsStarDotPlus r)

/-- Existence of a prefix match for the regex fragment `\s+.+`. -/
def wsPlusDotPlus : List Char → Bool
  | [] => false
  | c :: r => c.isWhitespace && wsStarDotPlus r

/-- Existence of a prefix match for the regex fragment `\s*[A-Z][a-z]`. -/
def wsStarUpperLower : List Char → Bool
  | [] => false
  | c :: r =>
    (c.isUpper && (match r with | d :: _ => d.isLower | [] => false)) ||
      (c.isWhitespace && wsStarUpperLower r)

/-- Existence of a prefix match for the regex fragment `\s+[A-Z][a-z]`. -/
def wsPlusUpperLower : List Char → Bool
  | [] => false
  | c :: r => c.isWhitespace && wsStarUpperLower r

/-- Existence of a prefix match for the regex fragment `:?\s*.+`. -/
def colonWsDotTail (l : List Char) : Bool :=
  (match l with | ':' :: r => wsStarDotPlus r | _ => false) || wsStarDotPlus l

/-- Existence of a prefix match for `\s*[A-Za-z]:?\s*.+` (the letter class is
`[A-Z]` under `re.IGNORECASE`). -/
def wsStarAlphaColonTail : List Char → Bool
  | [] => false
  | c :: r =>
    (c.isAlpha && colonWsDotTail r) || (c.isWhitespace && wsStarAlphaColonTail r)

/-- Existence of a prefix match for `\s+[A-Za-z]:?\s*.+`. -/
def wsPlusAlphaColonTail : List Char → Bool
  | [] => false
  | c :: r => c.isWhitespace && wsStarAlphaColonTail r

/-- `NUMBERED_PATTERN = re.compile(r'^(\d+)\.?\s+(.+)')`, as a prefix-match
test.  Taking the maximal digit run and the optional dot when present is
complete: a digit cannot be matched by `\.?` or `\s+`, and skipping a
present dot leaves `\s+` to match the dot, which fails. -/
def NUMBERED_PATTERN (s : List Char) : Bool :=
  !(s.takeWhile Char.isDigit).isEmpty &&
    (match s.dropWhile Char.isDigit with
     | '.' :: r => wsPlusDotPlus r
     | r => wsPlusDotPlus r)

/-- `SUB_NUMBERED_PATTERN = re.compile(r'^(\d+\.\d+)\s+(.+)')`. -/
def SUB_NUMBERED_PATTERN (s : List Char) : Bool :=
  !(s.takeWhile Char.isDigit).isEmpty &&
    (match s.dropWhile Char.isDigit with
     | '.' :: r =>
       !(r.takeWhile Char.isDigit).isEmpty && wsPlusDotPlus (r.dropWhile Char.isDigit)
     | _ => false)

/-- `SUB_SUB_NUMBERED_PATTERN = re.compile(r'^(\d+\.\d+\.\d+)\s+(.+)')`. -/
def SUB_SUB_NUMBERED_PATTERN (s : List Char) : Bool :=
  !(s.takeWhile Char.isDigit).isEmpty &&
    (match s.dropWhile Char.isDigit with
     | '.' :: r =>
       !(r.takeWhile Char.isDigit).isEmpty &&
         (match r.dropWhile Char.isDigit with
          | '.' :: r2 =>
            !(r2.takeWhile Char.isDigit).isEmpty &&
              wsPlusDotPlus (r2.dropWhile Char.isDigit)
          | _ => false)
     | _ => false)

/-- `APPENDIX_PATTERN = re.compile(r'^(Appendix\s+[A-Z]:?\s*.+)', re.IGNORECASE)`. -/
def APPENDIX_PATTERN (s : List Char) : Bool :=
  decide ((s.take 8).map Char.toLower = "appendix".data) &&
    wsPlusAlphaColonTail (s.drop 8)

/-- The inline gate rejection `re.match(r'^\d+\.\s+[A-Z][a-z]', text)`. -/
def formFieldMatch (s : List Char) : Bool :=
  !(s.takeWhile Char.isDigit).isEmpty &&
    (match s.dropWhile Char.isDigit with
     | '.' :: r => wsPlusUpperLower r
     | _ => false)

/-- `KNOWN_H1_HEADINGS` from the source. -/
def KNOWN_H1_HEADINGS : List (List Char) :=
  ["revision history".data, "table of contents".data, "acknowledgements".data,
   "references".data, "summary".data, "background".data, "pathway options".data]

/-- Integer test for `(k : ℚ) < q`, on the numerator and denominator of `q`. -/
def qIntLtQ (k : ℤ) (q : ℚ) : Bool :=
  decide (k * (q.den : ℤ) < q.num)

/-- Integer test for `q < (k : ℚ)`. -/
def qLtIntQ (q : ℚ) (k : ℤ) : Bool :=
  decide (q.num < k * (q.den : ℤ))

/-- A text line as produced by the PDF extractor: trimmed text, dominant span
font size, dominant span bold flag, bounding box and 1-based page number. -/
structure Line where
  text : List Char
  size : ℚ
  bold : Bool
  bbox : ℚ × ℚ × ℚ × ℚ
  page : ℕ
deriving DecidableEq, Repr

/-- Heading levels. -/
inductive HLevel
  | H1
  | H2
  | H3
  | H4
deriving DecidableEq, Repr

/-- One outline entry. -/
structure Heading where
  level : HLevel
  text : List Char
  page : ℕ
deriving DecidableEq, Repr

/-- The final artifact of one document run. -/
structure Outline where
  title : List Char
  outline : List Heading
deriving DecidableEq, Repr

/-- `simple_heading_detection(text, size, bold, body_size)` from the source.
The colon block can fall through to the phase, all-caps and font rules when
none of its three inner branches fires; `tail` models that shared
continuation. -/
def simple_heading_detection (text : List Char) (size : ℚ) (bold : Bool)
    (body_size : ℤ) : Option HLevel :=
  let text_clean := pyTrim text
  let text_lower := pyTrim (text_clean.map Char.toLower)
  if SUB_SUB_NUMBERED_PATTERN text_clean then some .H3
  else if SUB_NUMBERED_PATTERN text_clean then some .H2
  else if NUMBERED_PATTERN text_clean then some .H1
  else if APPENDIX_PATTERN text_clean then some .H2
  else if decide (text_lower ∈ KNOWN_H1_HEADINGS) then some .H1
  else
    let tail : Option HLevel :=
      if "phase ".data.isPrefixOf text_lower then some .H3
      else if pyIsUpper text_clean && decide (5 ≤ text_clean.length) &&
          decide (text_clean.length ≤ 30) then some .H1
      else if bold && qIntLtQ (body_size + 2) size then some .H2
      else none
    if endsColon text_clean && decide (text_clean.length < 50) then
      if "for each".data.isPrefixOf text_lower then some .H4
      else if decide (text_lower = "timeline:".data) ||
          decide (text_lower = "milestones:".data) then some .H3
      else if decide (text_clean.length < 40) then some .H3
      else tail
    else tail

/-- `is_likely_heading(text, size, bold, body_size)` from the source. -/
def is_likely_heading (text : List Char) (size : ℚ) (bold : Bool)
    (body_size : ℤ) : Bool :=
  let text := pyTrim text
  if decide (text.length < 3) || decide (200 < text.length) then false
  else if containsSub ". ".data text && decide (50 < text.length) then false
  else if formFieldMatch text then false
  else
    let text_lower := pyTrim (text.map Char.toLower)
    NUMBERED_PATTERN text || SUB_NUMBERED_PATTERN text ||
      SUB_SUB_NUMBERED_PATTERN text || APPENDIX_PATTERN text ||
      decide (text_lower ∈ KNOWN_H1_HEADINGS) ||
      (endsColon text && decide (text.length < 50)) ||
      "phase ".data.isPrefixOf text_lower ||
      (pyIsUpper text && decide (5 ≤ text.length) && decide (text.length ≤ 30)) ||
      (bold && qIntLtQ (body_size + 2) size)

/-- `" ".join(...)`. -/
def joinSpace : List (List Char) → List Char
  | [] => []
  | [s] => s
  | s :: rest => s ++ ' ' :: joinSpace rest

/-- The lowercased text of the first 20 lines joined by single spaces, as
built inside `detect_form_document`. -/
def first20Text (lines : List Line) : List Char :=
  joinSpace ((lines.take 20).map (fun l => l.text.map Char.toLower))

/-- The `form_keywords` list from the source. -/
def FORM_KEYWORDS : List (List Char) :=
  ["application form".data, "grant".data, "ltc advance".data]

/-- `detect_form_document(lines)` from the source. -/
def detect_form_document (lines : List Line) : Bool :=
  decide (2 ≤ (FORM_KEYWORDS.filter
    (fun k => containsSub k (first20Text lines))).length)

/-- Python `round` on an exact rational: round half to even.  `f` is the
floor, and `2 * (q - f)` is compared with `1` through the numerator and
denominator of `q` using integer arithmetic only. -/
def pyRound (q : ℚ) : ℤ :=
  let d : ℤ := (q.den : ℤ)
  let f : ℤ := q.num.fdiv d
  let twice : ℤ := 2 * (q.num - f * d)
  if twice < d then f
  else if d < twice then f + 1
  else if f % 2 = 0 then f else f + 1

/-- The keys of `Counter(sizes)` in insertion order, i.e. the distinct values
in order of first occurrence. -/
def keysInOrder : List ℤ → List ℤ
  | [] => []
  | x :: xs => x :: keysInOrder (xs.filter (fun y => decide (y ≠ x)))
termination_by l => l.length
decreasing_by
  simp only [List.length_cons]
  exact Nat.lt_succ_of_le (List.length_filter_le _ _)

/-- Stable maximum by count: keep the current best unless a strictly larger
count appears, as `Counter.most_common` (equivalent to a stable descending
sort by count) keeps the earliest-inserted key among maxima. -/
def pickMax (cnt : ℤ → ℕ) : ℤ → List ℤ → ℤ
  | b, [] => b
  | b, k :: ks => pickMax cnt (if cnt b < cnt k then k else b) ks

/-- `Counter(sizes).most_common(1)[0][0]`: the most frequent value, ties
resolved in favour of the earliest first occurrence.  The default for the
empty list is never consulted by `get_body_size`. -/
def most_common1 (sizes : List ℤ) : ℤ :=
  match keysInOrder sizes with
  | [] => 12
  | k :: ks => pickMax (fun x => sizes.count x) k ks

/-- The rounded sizes of the lines with more than 10 characters of text, the
first candidate list built by `get_body_size`. -/
def qualSizes (lines : List Line) : List ℤ :=
  (lines.filter (fun l => decide (10 < l.text.length))).map (fun l => pyRound l.size)

/-- `get_body_size(lines)` from the source. -/
def get_body_size (lines : List Line) : ℤ :=
  let sizes :=
    if (qualSizes lines).isEmpty then lines.map (fun l => pyRound l.size)
    else qualSizes lines
  if sizes.isEmpty then 12 else most_common1 sizes

/-- The numerator of `size + (10 if bold else 0)` over the denominator of
`size`; the score compared by `simple_title_extraction`, kept as an exact
integer pair `(titleScoreNum, size.den)`. -/
def titleScoreNum (size : ℚ) (bold : Bool) : ℤ :=
  size.num + (if bold then 10 else 0) * (size.den : ℤ)

/-- Strict comparison of two exact scores given as numerator/denominator
pairs (cross multiplication; denominators are positive). -/
def scLt (a b : ℤ × ℕ) : Bool :=
  decide (a.1 * (b.2 : ℤ) < b.1 * (a.2 : ℤ))

/-- Equality of two exact scores given as numerator/denominator pairs. -/
def scEq (a b : ℤ × ℕ) : Bool :=
  decide (a.1 * (b.2 : ℤ) = b.1 * (a.2 : ℤ))

/-- Strict comparison of `(score, text)` candidate pairs, as Python compares
the tuples built by `simple_title_extraction`. -/
def candLt (p q : (ℤ × ℕ) × List Char) : Bool :=
  scLt p.1 q.1 || (scEq p.1 q.1 && strLt p.2 q.2)

/-- The `(score, text)` candidate list of `simple_title_extraction`: page-1
lines in the upper portion (`y0 < 200`) with text of length at least 5. -/
def titleCandidates (fp : List Line) : List ((ℤ × ℕ) × List Char) :=
  fp.filterMap (fun l =>
    if qLtIntQ l.bbox.2.1 200 && decide (5 ≤ l.text.length) then
      some ((titleScoreNum l.size l.bold, l.size.den), l.text)
    else none)

/-- `candidates.sort(reverse=True); candidates[0]`: the lexicographically
greatest `(score, text)` pair, realised as a fold keeping the current best
unless a strictly greater pair appears. -/
def bestCandidate (c : (ℤ × ℕ) × List Char) (cs : List ((ℤ × ℕ) × List Char)) :
    (ℤ × ℕ) × List Char :=
  cs.foldl (fun best p => if candLt best p then p else best) c

/-- `simple_title_extraction(first_page_lines, filename)` from the source. -/
def simple_title_extraction (fp : List Line) (filename : List Char) : List Char :=
  if filename = "file05".data then []
  else if fp = [] then filename
  else
    match titleCandidates fp with
    | [] => filename
    | c :: cs => pyTrim (bestCandidate c cs).2

/-- The heading built from one line inside the loop of `process_pdf_simple`:
`None` when the gate rejects the line or the level assignment yields no
level. -/
def classifyLine (body_size : ℤ) (l : Line) : Option Heading :=
  if is_likely_heading l.text l.size l.bold body_size then
    match simple_heading_detection l.text l.size l.bold body_size with
    | some lvl => some ⟨lvl, pyTrim l.text ++ [' '], l.page⟩
    | none => none
  else none

/-- The deduplication key `(heading["level"], heading["text"].strip(), heading["page"])`. -/
def hKey (h : Heading) : HLevel × List Char × ℕ :=
  (h.level, pyTrim h.text, h.page)

/-- The sort order `key=lambda x: (x["page"], x["text"])` of
`process_pdf_simple`, as a total preorder. -/
def hLeP (a b : Heading) : Prop :=
  a.page < b.page ∨ (a.page = b.page ∧ strLt b.text a.text = false)

instance : DecidableRel hLeP := fun a b =>
  inferInstanceAs (Decidable
    (a.page < b.page ∨ (a.page = b.page ∧ strLt b.text a.text = false)))

/-- The `seen`-set deduplication loop of `process_pdf_simple`. -/
def dedupAux : List Heading → List (HLevel × List Char × ℕ) → List Heading
  | [], _ => []
  | h :: t, seen =>
    if hKey h ∈ seen then dedupAux t seen
    else h :: dedupAux t (hKey h :: seen)

/-- The page-1 lines, `[line for line in all_lines if line["page"] == 1]`. -/
def firstPageLines (lines : List Line) : List Line :=
  lines.filter (fun l => decide (l.page = 1))

/-- The classified heading list of a document after sorting and before
deduplication; empty in the zero-line and form branches, which skip the
heading loop. -/
def sortedHeadings (all_lines : List Line) : List Heading :=
  if all_lines = [] then []
  else if detect_form_document all_lines then []
  else
    List.insertionSort hLeP
      (all_lines.filterMap (classifyLine (get_body_size all_lines)))

/-- `process_pdf_simple`, from the point where the extractor has delivered
the full line sequence: the pure document pipeline taking the lines and the
file base name (`pdf_path.stem`) to the output object. -/
def process_pdf_simple (all_lines : List Line) (stem : List Char) : Outline :=
  if all_lines = [] then ⟨stem, []⟩
  else if detect_form_document all_lines then
    ⟨simple_title_extraction (firstPageLines all_lines) stem, []⟩
  else
    let title := simple_title_extraction (firstPageLines all_lines) stem
    let body_size := get_body_size all_lines
    let headings := all_lines.filterMap (classifyLine body_size)
    ⟨title, dedupAux (List.insertionSort hLeP headings) []⟩

/-! ### Order lemmas for the lexicographic string comparison -/

theorem strLt_asymm : ∀ {x y : List Char}, strLt x y = true → strLt y x = false
  | [], b :: bs, _ => by simp [strLt]
  | a :: as, b :: bs, h => by
    simp only [strLt, Bool.or_eq_true, Bool.and_eq_true, decide_eq_true_eq] at h ⊢
    rcases h with h | ⟨hab, h⟩
    · simp only [Bool.or_eq_false_iff, Bool.and_eq_false_iff, decide_eq_false_iff_not]
      omega
    · simp only [Bool.or_eq_false_iff, Bool.and_eq_false_iff, decide_eq_false_iff_not]
      exact ⟨by omega, Or.inr (strLt_asymm h)⟩

theorem strLt_trans : ∀ {x y z : List Char},
    strLt x y = true → strLt y z = true → strLt x z = true
  | [], _ :: _, c :: cs, _, _ => by simp [strLt]
  | a :: as, b :: bs, c :: cs, h1, h2 => by
    simp only [strLt, Bool.or_eq_true, Bool.and_eq_true, decide_eq_true_eq] at h1 h2 ⊢
    rcases h1 with h1 | ⟨hab, h1⟩ <;> rcases h2 with h2 | ⟨hbc, h2⟩
    · exact Or.inl (by omega)
    · exact Or.inl (by omega)
    · exact Or.inl (by omega)
    · exact Or.inr ⟨by omega, strLt_trans h1 h2⟩

theorem strLt_connex : ∀ {x z : List Char} (y : List Char),
    strLt x z = true → strLt x y = true ∨ strLt y z = true
  | [], c :: cs, [], _ => Or.inr (by simp [strLt])
  | [], c :: cs, b :: bs, _ => Or.inl (by simp [strLt])
  | a :: as, c :: cs, [], _ => Or.inr (by simp [strLt])
  | a :: as, c :: cs, b :: bs, h => by
    simp only [strLt, Bool.or_eq_true, Bool.and_eq_true, decide_eq_true_eq] at h ⊢
    rcases h with h | ⟨hac, h⟩
    · by_cases hab : a.toNat < b.toNat
      · exact Or.inl (Or.inl hab)
      · exact Or.inr (Or.inl (by omega))
    · rcases Nat.lt_trichotomy a.toNat b.toNat with hab | hab | hab
      · exact Or.inl (Or.inl hab)
      · rcases strLt_connex bs h with h' | h'
        · exact Or.inl (Or.inr ⟨hab, h'⟩)
        · exact Or.inr (Or.inr ⟨by omega, h'⟩)
      · exact Or.inr (Or.inl (by omega))

instance : IsTotal Heading hLeP := by
  constructor
  intro a b
  unfold hLeP
  rcases Nat.lt_trichotomy a.page b.page with h | h | h
  · exact Or.inl (Or.inl h)
  · by_cases hs : strLt b.text a.text = true
    · exact Or.inr (Or.inr ⟨h.symm, strLt_asymm hs⟩)
    · exact Or.inl (Or.inr ⟨h, Bool.eq_false_iff.mpr hs⟩)
  · exact Or.inr (Or.inl h)

instance : IsTrans Heading hLeP := by
  constructor
  intro a b c hab hbc
  unfold hLeP at hab hbc ⊢
  rcases hab with hab | ⟨hab, sab⟩ <;> rcases hbc with hbc | ⟨hbc, sbc⟩
  · exact Or.inl (by omega)
  · exact Or.inl (by omega)
  · exact Or.inl (by omega)
  · refine Or.inr ⟨by omega, ?_⟩
    by_contra hca
    rcases strLt_connex b.text (Bool.not_eq_false _ |>.mp hca) with h' | h'
    · exact absurd h' (Bool.eq_false_iff.mp sbc ∘ id)
    · exact absurd h' (Bool.eq_false_iff.mp sab ∘ id)

/-! ### Deduplication lemmas -/

theorem dedupAux_sublist : ∀ (l : List Heading) (seen : List (HLevel × List Char × ℕ)),
    (dedupAux l seen).Sublist l
  | [], _ => List.Sublist.refl _
  | h :: t, seen => by
    unfold dedupAux
    by_cases hs : hKey h ∈ seen
    · simp only [if_pos hs]
      exact (dedupAux_sublist t seen).cons h
    · simp only [if_neg hs]
      exact (dedupAux_sublist t (hKey h :: seen)).cons₂ h

theorem mem_of_mem_dedupAux {x : Heading} : ∀ {l : List Heading}
    {seen : List (HLevel × List Char × ℕ)}, x ∈ dedupAux l seen → x ∈ l :=
  fun h => (dedupAux_sublist _ _).mem h

theorem hKey_not_seen_of_mem_dedupAux {x : Heading} : ∀ {l : List Heading}
    {seen : List (HLevel × List Char × ℕ)}, x ∈ dedupAux l seen → hKey x ∉ seen
  | [], _, hx => by simp [dedupAux] at hx
  | h :: t, seen, hx => by
    unfold dedupAux at hx
    by_cases hs : hKey h ∈ seen
    · rw [if_pos hs] at hx
      exact hKey_not_seen_of_mem_dedupAux hx
    · rw [if_neg hs] at hx
      rcases List.mem_cons.mp hx with rfl | hx
      · exact hs
      · have := hKey_not_seen_of_mem_dedupAux hx
        exact fun hm => this (List.mem_cons_of_mem _ hm)

theorem dedupAux_pairwise_ne : ∀ (l : List Heading)
    (seen : List (HLevel × List Char × ℕ)),
    (dedupAux l seen).Pairwise (fun a b => hKey a ≠ hKey b)
  | [], _ => by simp [dedupAux]
  | h :: t, seen => by
    unfold dedupAux
    by_cases hs : hKey h ∈ seen
    · simpa only [if_pos hs] using dedupAux_pairwise_ne t seen
    · simp only [if_neg hs]
      refine List.Pairwise.cons ?_ (dedupAux_pairwise_ne t _)
      intro x hx hne
      exact hKey_not_seen_of_mem_dedupAux hx (by simp [hne])

theorem dedupAux_find? (k : HLevel × List Char × ℕ) : ∀ (l : List Heading)
    (seen : List (HLevel × List Char × ℕ)), k ∉ seen →
    (dedupAux l seen).find? (fun x => decide (hKey x = k)) =
      l.find? (fun x => decide (hKey x = k))
  | [], _, _ => by simp [dedupAux]
  | h :: t, seen, hk => by
    unfold dedupAux
    by_cases hs : hKey h ∈ seen
    · rw [if_pos hs]
      have hne : hKey h ≠ k := fun he => hk (he ▸ hs)
      rw [List.find?_cons_of_neg _ (by simpa using hne)]
      exact dedupAux_find? k t seen hk
    · rw [if_neg hs]
      by_cases he : hKey h = k
      · rw [List.find?_cons_of_pos _ (by simpa using he),
          List.find?_cons_of_pos _ (by simpa using he)]
      · rw [List.find?_cons_of_neg _ (by simpa using he),
          List.find?_cons_of_neg _ (by simpa using he)]
        exact dedupAux_find? k t _ (by
          intro hm
          rcases List.mem_cons.mp hm with h' | h'
          · exact he h'.symm
          · exact hk h')

/-! ### Lemmas about the body-size computation -/

theorem pickMax_mem (cnt : ℤ → ℕ) : ∀ (ks : List ℤ) (b : ℤ),
    pickMax cnt b ks ∈ b :: ks
  | [], b => by simp [pickMax]
  | k :: ks, b => by
    unfold pickMax
    by_cases h : cnt b < cnt k
    · rw [if_pos h]
      rcases List.mem_cons.mp (pickMax_mem cnt ks k) with h' | h'
      · simp [h']
      · simp [List.mem_cons_of_mem, h']
    · rw [if_neg h]
      rcases List.mem_cons.mp (pickMax_mem cnt ks b) with h' | h'
      · simp [h']
      · simp [List.mem_cons_of_mem, h']

theorem pickMax_le (cnt : ℤ → ℕ) : ∀ (ks : List ℤ) (b : ℤ) (x : ℤ),
    x ∈ b :: ks → cnt x ≤ cnt (pickMax cnt b ks)
  | [], b, x, hx => by
    rcases List.mem_cons.mp hx with rfl | hx
    · simp [pickMax]
    · simp at hx
  | k :: ks, b, x, hx => by
    unfold pickMax
    by_cases h : cnt b < cnt k
    · rw [if_pos h]
      rcases List.mem_cons.mp hx with rfl | hx
      · exact le_of_lt (lt_of_lt_of_le h
          (pickMax_le cnt ks k k (List.mem_cons_self _ _)))
      · exact pickMax_le cnt ks k x hx
    · rw [if_neg h]
      rcases List.mem_cons.mp hx with rfl | hx
      · exact pickMax_le cnt ks x x (List.mem_cons_self _ _)
      · rcases List.mem_cons.mp hx with rfl | hx
        · exact le_trans (Nat.le_of_not_lt h)
            (pickMax_le cnt ks b b (List.mem_cons_self _ _))
        · exact pickMax_le cnt ks b x (List.mem_cons_of_mem _ hx)

theorem pickMax_find? (cnt : ℤ → ℕ) : ∀ (ks : List ℤ) (b : ℤ),
    (b :: ks).find? (fun x => decide (cnt x = cnt (pickMax cnt b ks))) =
      some (pickMax cnt b ks)
  | [], b => by simp [pickMax]
  | k :: ks, b => by
    unfold pickMax
    by_cases h : cnt b < cnt k
    · rw [if_pos h]
      have hb : cnt b ≠ cnt (pickMax cnt k ks) := by
        have := pickMax_le cnt ks k k (List.mem_cons_self _ _)
        omega
      rw [List.find?_cons_of_neg _ (by simpa using hb)]
      exact pickMax_find? cnt ks k
    · rw [if_neg h]
      have ih := pickMax_find? cnt ks b
      by_cases hb : cnt b = cnt (pickMax cnt b ks)
      · rw [List.find?_cons_of_pos _ (by simpa using hb)]
        rw [List.find?_cons_of_pos _ (by simpa using hb)] at ih
        exact ih
      · rw [List.find?_cons_of_neg _ (by simpa using hb)]
        have hbk := pickMax_le cnt ks b b (List.mem_cons_self _ _)
        have hk : cnt k ≠ cnt (pickMax cnt b ks) := by omega
        rw [List.find?_cons_of_neg _ (by simpa using hk)]
        rw [List.find?_cons_of_neg _ (by simpa using hb)] at ih
        exact ih

theorem mem_keysInOrder : ∀ (l : List ℤ) (x : ℤ), x ∈ keysInOrder l ↔ x ∈ l
  | [], x => by simp [keysInOrder]
  | y :: ys, x => by
    rw [keysInOrder]
    by_cases hxy : x = y
    · subst hxy
      simp
    · simp only [List.mem_cons, hxy, false_or]
      rw [mem_keysInOrder]
      simp [List.mem_filter, hxy]
termination_by l => l.length
decreasing_by
  simp only [List.length_cons]
  exact Nat.lt_succ_of_le (List.length_filter_le _ _)

/-! ### Bridges between the integer tests and the order on ℚ -/

theorem strLt_irrefl : ∀ (x : List Char), strLt x x = false
  | [] => rfl
  | a :: as => by
    simp only [strLt, Bool.or_eq_false_iff, Bool.and_eq_false_iff,
      decide_eq_false_iff_not]
    exact ⟨by omega, Or.inr (strLt_irrefl as)⟩

theorem qIntLtQ_iff (k : ℤ) (q : ℚ) : qIntLtQ k q = true ↔ (k : ℚ) < q := by
  rw [qIntLtQ, decide_eq_true_eq]
  have hd : (0 : ℚ) < (q.den : ℚ) := by exact_mod_cast q.den_pos
  constructor
  · intro h
    have h2 : (k : ℚ) * (q.den : ℚ) < (q.num : ℚ) := by exact_mod_cast h
    have h3 := (lt_div_iff₀ hd).mpr h2
    rwa [q.num_div_den] at h3
  · intro h
    have h3 : (k : ℚ) < (q.num : ℚ) / (q.den : ℚ) := by rwa [q.num_div_den]
    have h2 := (lt_div_iff₀ hd).mp h3
    exact_mod_cast h2

theorem qLtIntQ_iff (q : ℚ) (k : ℤ) : qLtIntQ q k = true ↔ q < (k : ℚ) := by
  rw [qLtIntQ, decide_eq_true_eq]
  have hd : (0 : ℚ) < (q.den : ℚ) := by exact_mod_cast q.den_pos
  constructor
  · intro h
    have h2 : (q.num : ℚ) < (k : ℚ) * (q.den : ℚ) := by exact_mod_cast h
    have h3 := (div_lt_iff₀ hd).mpr h2
    rwa [q.num_div_den] at h3
  · intro h
    have h3 : (q.num : ℚ) / (q.den : ℚ) < (k : ℚ) := by rwa [q.num_div_den]
    have h2 := (div_lt_iff₀ hd).mp h3
    exact_mod_cast h2

/-- The outline of the pipeline output is the deduplication of the sorted
heading list, in every branch. -/
theorem process_outline_eq (lines : List Line) (stem : List Char) :
    (process_pdf_simple lines stem).outline = dedupAux (sortedHeadings lines) [] := by
  unfold process_pdf_simple sortedHeadings
  by_cases hl : lines = []
  · simp [hl, dedupAux]
  · rw [if_neg hl, if_neg hl]
    by_cases hf : detect_form_document lines
    · simp [hf, dedupAux]
    · simp [hf]

/-! ### The claims -/

/-- Claim C1, counterexample.  The claim asserts that the gate
`is_likely_heading` accepts the line with text "1. Introduction", size 14,
bold, page 1 at body size 11.  It does not: the form-field rejection
`^\d+\.\s+[A-Z][a-z]` fires on "1. Introduction" (digit, period, space,
uppercase I, lowercase n) before any acceptance rule runs, so the gate
returns false. -/
theorem c1_gate_rejects_intro :
    is_likely_heading "1. Introduction".data 14 true 11 = false := by decide

/-- Claim C1, amended.  For the line with text "1. Introduction", size 14,
bold true, page 1 and body size 11, the gate rejects the line via the
form-field shape filter, even though `simple_heading_detection` alone would
assign level H1 via the numbered pattern; consequently a document consisting
of that line produces an empty outline (no entry is emitted), while the
title is still taken from the line. -/
theorem c1_intro_line_never_in_outline :
    is_likely_heading "1. Introduction".data 14 true 11 = false ∧
    simple_heading_detection "1. Introduction".data 14 true 11 = some HLevel.H1 ∧
    process_pdf_simple [⟨"1. Introduction".data, 14, true, (0, 100, 612, 120), 1⟩]
        "doc".data =
      ⟨"1. Introduction".data, []⟩ := by
  refine ⟨by decide, by decide, by decide⟩

/-- Claim C8: the line "1 Introduction" (digits, a space, no period) is not
rejected by the form-field filter, which requires a period; the gate accepts
it through the plain numbered pattern whose period is optional, and
`simple_heading_detection` assigns H1, for every size, bold flag and body
size. -/
theorem c8_no_period_numbered_heading (size : ℚ) (bold : Bool) (body_size : ℤ) :
    is_likely_heading "1 Introduction".data size bold body_size = true ∧
    simple_heading_detection "1 Introduction".data size bold body_size =
      some HLevel.H1 :=
  ⟨rfl, rfl⟩

/-- Claim C3: whenever `detect_form_document` returns true on the line
sequence, the produced outline is empty and the title is still computed by
`simple_title_extraction` from the page-1 lines. -/
theorem c3_form_document_empty_outline (lines : List Line) (stem : List Char)
    (h : detect_form_document lines = true) :
    process_pdf_simple lines stem =
      ⟨simple_title_extraction (firstPageLines lines) stem, []⟩ := by
  by_cases hl : lines = []
  · subst hl
    exact absurd h (by decide)
  · unfold process_pdf_simple
    rw [if_neg hl, if_pos h]

/-- A concrete fillable-form document: its first lines mention both
"application form" and "ltc advance". -/
def formDoc : List Line :=
  [⟨"Application form for employees".data, 12, false, (0, 100, 612, 120), 1⟩,
   ⟨"LTC advance request".data, 12, false, (0, 150, 612, 170), 1⟩,
   ⟨"Summary".data, 12, false, (0, 300, 612, 320), 2⟩]

theorem c3_form_document_empty_outline_witness :
    detect_form_document formDoc = true ∧
    process_pdf_simple formDoc "doc".data =
      ⟨simple_title_extraction (firstPageLines formDoc) "doc".data, []⟩ :=
  ⟨by decide, c3_form_document_empty_outline formDoc "doc".data (by decide)⟩

/-- Claim C5: the final outline is sorted by ascending page number, and
within one page by ascending text in the lexicographic code-point order
(`strLt b.text a.text = false` says the later entry's text is not smaller,
i.e. of two same-page entries the lexicographically smaller text comes
first); the level takes no part in the order. -/
theorem c5_outline_sorted (lines : List Line) (stem : List Char) :
    (process_pdf_simple lines stem).outline.Pairwise
      (fun a b => a.page < b.page ∨ (a.page = b.page ∧ strLt b.text a.text = false)) := by
  rw [process_outline_eq]
  unfold sortedHeadings
  by_cases hl : lines = []
  · simp [hl, dedupAux]
  · rw [if_neg hl]
    by_cases hf : detect_form_document lines
    · simp [hf, dedupAux]
    · rw [if_neg (by simp [hf])]
      exact List.Pairwise.sublist (dedupAux_sublist _ _)
        (List.sorted_insertionSort hLeP _)

/-- Claim C6: after deduplication no two outline entries share the same
(level, trimmed text, page) key, and for every key the entry that survives
is exactly the first entry carrying that key in the sorted pre-deduplication
sequence (`List.find?` returns the first match, so equality of the two
searches says the earlier occurrence is the survivor). -/
theorem c6_dedup_first_wins (lines : List Line) (stem : List Char)
    (k : HLevel × List Char × ℕ) :
    (process_pdf_simple lines stem).outline.Pairwise (fun a b => hKey a ≠ hKey b) ∧
    (process_pdf_simple lines stem).outline.find? (fun x => decide (hKey x = k)) =
      (sortedHeadings lines).find? (fun x => decide (hKey x = k)) := by
  rw [process_outline_eq]
  exact ⟨dedupAux_pairwise_ne _ _, dedupAux_find? k _ [] (by simp)⟩

/-- Claim C10: with at least one qualifying line (text longer than 10
characters), `get_body_size` is `most_common1` of the qualifying rounded
sizes; the result occurs in that list, its count is maximal, and among the
values of maximal count it is the one whose first occurrence comes earliest
(`List.find?` over the insertion-order key list returns it first). -/
theorem c10_body_size_tie_break (lines : List Line) (h : qualSizes lines ≠ []) :
    get_body_size lines = most_common1 (qualSizes lines) ∧
    most_common1 (qualSizes lines) ∈ qualSizes lines ∧
    (∀ x ∈ qualSizes lines,
      (qualSizes lines).count x ≤
        (qualSizes lines).count (most_common1 (qualSizes lines))) ∧
    (keysInOrder (qualSizes lines)).find?
        (fun x => decide ((qualSizes lines).count x =
          (qualSizes lines).count (most_common1 (qualSizes lines)))) =
      some (most_common1 (qualSizes lines)) := by
  have hempty : (qualSizes lines).isEmpty = false := by
    simpa [List.isEmpty_iff] using h
  have hbody : get_body_size lines = most_common1 (qualSizes lines) := by
    unfold get_body_size
    rw [hempty]
    simp [hempty]
  obtain ⟨a, t, ha⟩ : ∃ a t, qualSizes lines = a :: t := by
    cases hq : qualSizes lines with
    | nil => exact absurd hq h
    | cons a t => exact ⟨a, t, rfl⟩
  obtain ⟨kh, kt, hk⟩ : ∃ kh kt, keysInOrder (qualSizes lines) = kh :: kt := by
    rw [ha, keysInOrder]
    exact ⟨a, _, rfl⟩
  have hmc : most_common1 (qualSizes lines) =
      pickMax (fun x => (qualSizes lines).count x) kh kt := by
    unfold most_common1
    rw [hk]
  refine ⟨hbody, ?_, ?_, ?_⟩
  · rw [hmc]
    exact (mem_keysInOrder _ _).mp
      (hk ▸ pickMax_mem (fun y => (qualSizes lines).count y) kt kh)
  · intro x hx
    rw [hmc]
    exact pickMax_le (fun y => (qualSizes lines).count y) kt kh x
      (hk ▸ (mem_keysInOrder _ x).mpr hx)
  · rw [hmc, hk]
    exact pickMax_find? (fun y => (qualSizes lines).count y) kt kh

/-- A document with two rounded sizes tied at maximal frequency (12 and 14
both occur twice among the qualifying lines); 12 occurs first. -/
def tieDoc : List Line :=
  [⟨"aaaaaaaaaaaa".data, 12, false, (0, 0, 0, 0), 1⟩,
   ⟨"bbbbbbbbbbbb".data, 14, false, (0, 0, 0, 0), 1⟩,
   ⟨"cccccccccccc".data, 12, false, (0, 0, 0, 0), 2⟩,
   ⟨"dddddddddddd".data, 14, false, (0, 0, 0, 0), 2⟩]

theorem c10_body_size_tie_break_witness :
    qualSizes tieDoc ≠ [] ∧
    (get_body_size tieDoc = most_common1 (qualSizes tieDoc) ∧
      most_common1 (qualSizes tieDoc) ∈ qualSizes tieDoc ∧
      (∀ x ∈ qualSizes tieDoc,
        (qualSizes tieDoc).count x ≤
          (qualSizes tieDoc).count (most_common1 (qualSizes tieDoc))) ∧
      (keysInOrder (qualSizes tieDoc)).find?
          (fun x => decide ((qualSizes tieDoc).count x =
            (qualSizes tieDoc).count (most_common1 (qualSizes tieDoc)))) =
        some (most_common1 (qualSizes tieDoc))) :=
  ⟨by decide, c10_body_size_tie_break tieDoc (by decide)⟩

/-- Claim C4: every entry of the final outline originates in a line of the
document that the gate `is_likely_heading` accepted (so a line on which the
gate returns false contributes no entry, whatever
`simple_heading_detection` would have returned for it). -/
theorem c4_outline_entries_pass_gate (lines : List Line) (stem : List Char)
    (h : Heading) (hmem : h ∈ (process_pdf_simple lines stem).outline) :
    ∃ l ∈ lines,
      is_likely_heading l.text l.size l.bold (get_body_size lines) = true ∧
      simple_heading_detection l.text l.size l.bold (get_body_size lines) =
        some h.level ∧
      h.text = pyTrim l.text ++ [' '] ∧ h.page = l.page := by
  rw [process_outline_eq] at hmem
  have hs : h ∈ sortedHeadings lines := mem_of_mem_dedupAux hmem
  unfold sortedHeadings at hs
  by_cases hl : lines = []
  · rw [if_pos hl] at hs
    exact absurd hs (List.not_mem_nil h)
  · rw [if_neg hl] at hs
    by_cases hf : detect_form_document lines
    · rw [if_pos (by simp [hf])] at hs
      exact absurd hs (List.not_mem_nil h)
    · rw [if_neg (by simp [hf])] at hs
      rw [List.mem_insertionSort] at hs
      obtain ⟨l, hlmem, hcl⟩ := List.mem_filterMap.mp hs
      refine ⟨l, hlmem, ?_⟩
      unfold classifyLine at hcl
      by_cases hg : is_likely_heading l.text l.size l.bold (get_body_size lines) = true
      · rw [if_pos hg] at hcl
        refine ⟨hg, ?_⟩
        cases hdet : simple_heading_detection l.text l.size l.bold
            (get_body_size lines) with
        | none => rw [hdet] at hcl; exact absurd hcl (by simp)
        | some lvl =>
          rw [hdet] at hcl
          simp only [Option.some.injEq] at hcl
          rw [← hcl]
          exact ⟨rfl, rfl, rfl⟩
      · rw [if_neg hg] at hcl
        exact absurd hcl (by simp)

/-- A one-line document whose single line "Summary" is a known heading. -/
def summaryDoc : List Line :=
  [⟨"Summary".data, 12, false, (0, 100, 612, 120), 1⟩]

theorem c4_outline_entries_pass_gate_witness :
    (⟨HLevel.H1, "Summary ".data, 1⟩ : Heading) ∈
      (process_pdf_simple summaryDoc "doc".data).outline ∧
    ∃ l ∈ summaryDoc,
      is_likely_heading l.text l.size l.bold (get_body_size summaryDoc) = true ∧
      simple_heading_detection l.text l.size l.bold (get_body_size summaryDoc) =
        some (⟨HLevel.H1, "Summary ".data, 1⟩ : Heading).level ∧
      (⟨HLevel.H1, "Summary ".data, 1⟩ : Heading).text = pyTrim l.text ++ [' '] ∧
      (⟨HLevel.H1, "Summary ".data, 1⟩ : Heading).page = l.page :=
  ⟨by decide, c4_outline_entries_pass_gate summaryDoc "doc".data _ (by decide)⟩

/-- Claim C2, counterexample.  The claim asserts that every line whose
trimmed text ends with ":" and has length 40–49, does not start with
"for each" and is not "timeline:"/"milestones:", receives no level — even
when it starts with "phase ".  The line
"phase two: integration and testing periods:" (length 43) satisfies all of
the claim's hypotheses, yet the colon block falls through and the phase
rule assigns H3; the gate also accepts the line, so a document containing
it does gain an outline entry. -/
theorem c2_colon_band_counterexample :
    endsColon (pyTrim "phase two: integration and testing periods:".data) = true ∧
    40 ≤ (pyTrim "phase two: integration and testing periods:".data).length ∧
    (pyTrim "phase two: integration and testing periods:".data).length < 50 ∧
    "for each".data.isPrefixOf
      (pyTrim ((pyTrim "phase two: integration and testing periods:".data).map
        Char.toLower)) = false ∧
    pyTrim ((pyTrim "phase two: integration and testing periods:".data).map
      Char.toLower) ≠ "timeline:".data ∧
    pyTrim ((pyTrim "phase two: integration and testing periods:".data).map
      Char.toLower) ≠ "milestones:".data ∧
    simple_heading_detection "phase two: integration and testing periods:".data
      11 false 11 = some HLevel.H3 ∧
    (process_pdf_simple
        [⟨"phase two: integration and testing periods:".data, 11, false,
          (0, 100, 612, 120), 1⟩] "doc".data).outline =
      [⟨HLevel.H3, "phase two: integration and testing periods: ".data, 1⟩] := by
  refine ⟨by decide, by decide, by decide, by decide, by decide, by decide,
    by decide, by decide⟩

/-- Claim C2, amended.  A line whose trimmed text ends with ":" with length
40–49, not starting with "for each" and not equal to "timeline:" or
"milestones:", falls through the colon block with no level; contrary to the
claim the chain then continues with the later rules, so `none` results only
when additionally none of the earlier pattern rules (numbered, appendix,
known headings) matched, the lowercased text does not start with "phase "
and the line is not bold with size exceeding the body size by more than 2
(the all-caps rule cannot fire at length at least 40). -/
theorem c2_colon_band_no_level (text : List Char) (size : ℚ) (bold : Bool)
    (body_size : ℤ)
    (h1 : SUB_SUB_NUMBERED_PATTERN (pyTrim text) = false)
    (h2 : SUB_NUMBERED_PATTERN (pyTrim text) = false)
    (h3 : NUMBERED_PATTERN (pyTrim text) = false)
    (h4 : APPENDIX_PATTERN (pyTrim text) = false)
    (h5 : pyTrim ((pyTrim text).map Char.toLower) ∉ KNOWN_H1_HEADINGS)
    (h6 : endsColon (pyTrim text) = true)
    (h7 : 40 ≤ (pyTrim text).length)
    (h8 : (pyTrim text).length < 50)
    (h9 : "for each".data.isPrefixOf (pyTrim ((pyTrim text).map Char.toLower)) = false)
    (h10 : pyTrim ((pyTrim text).map Char.toLower) ≠ "timeline:".data)
    (h11 : pyTrim ((pyTrim text).map Char.toLower) ≠ "milestones:".data)
    (h12 : "phase ".data.isPrefixOf (pyTrim ((pyTrim text).map Char.toLower)) = false)
    (h13 : bold = false ∨ ¬ ((body_size : ℚ) + 2 < size)) :
    simple_heading_detection text size bold body_size = none := by
  have h30 : ¬ ((pyTrim text).length ≤ 30) := by omega
  have h40 : ¬ ((pyTrim text).length < 40) := by omega
  have hfont : (bold && qIntLtQ (body_size + 2) size) = false := by
    rcases h13 with h13 | h13
    · simp [h13]
    · have : qIntLtQ (body_size + 2) size = false := by
        rw [Bool.eq_false_iff]
        intro hq
        apply h13
        have := (qIntLtQ_iff (body_size + 2) size).mp hq
        push_cast at this
        exact this
      simp [this]
  unfold simple_heading_detection
  simp only [h1, h2, h3, h4, h5, h6, h7, h8, h9, h10, h11, h12, h30, h40, hfont,
    decide_eq_true_eq, Bool.false_and, Bool.and_false,
    Bool.and_true, Bool.true_and, if_false, if_true, Bool.false_eq_true,
    decide_eq_false_iff_not, not_false_eq_true]
  simp [h5, h10, h11, h30, h40]

theorem c2_colon_band_no_level_witness :
    SUB_SUB_NUMBERED_PATTERN
      (pyTrim "responsibilities of the steering committee:".data) = false ∧
    SUB_NUMBERED_PATTERN
      (pyTrim "responsibilities of the steering committee:".data) = false ∧
    NUMBERED_PATTERN
      (pyTrim "responsibilities of the steering committee:".data) = false ∧
    APPENDIX_PATTERN
      (pyTrim "responsibilities of the steering committee:".data) = false ∧
    pyTrim ((pyTrim "responsibilities of the steering committee:".data).map
      Char.toLower) ∉ KNOWN_H1_HEADINGS ∧
    endsColon (pyTrim "responsibilities of the steering committee:".data) = true ∧
    40 ≤ (pyTrim "responsibilities of the steering committee:".data).length ∧
    (pyTrim "responsibilities of the steering committee:".data).length < 50 ∧
    "for each".data.isPrefixOf
      (pyTrim ((pyTrim "responsibilities of the steering committee:".data).map
        Char.toLower)) = false ∧
    pyTrim ((pyTrim "responsibilities of the steering committee:".data).map
      Char.toLower) ≠ "timeline:".data ∧
    pyTrim ((pyTrim "responsibilities of the steering committee:".data).map
      Char.toLower) ≠ "milestones:".data ∧
    "phase ".data.isPrefixOf
      (pyTrim ((pyTrim "responsibilities of the steering committee:".data).map
        Char.toLower)) = false ∧
    simple_heading_detection "responsibilities of the steering committee:".data
      10 false 10 = none := by
  refine ⟨by decide, by decide, by decide, by decide, by decide, by decide,
    by decide, by decide, by decide, by decide, by decide, by decide, ?_⟩
  exact c2_colon_band_no_level "responsibilities of the steering committee:".data
    10 false 10 (by decide) (by decide) (by decide) (by decide) (by decide)
    (by decide) (by decide) (by decide) (by decide) (by decide) (by decide)
    (by decide) (Or.inl rfl)

/-! ### Substring search and the form detector -/

theorem containsSub_infix_iff (n : List Char) : ∀ (h : List Char),
    containsSub n h = true ↔ n <:+: h
  | [] => by
    simp [containsSub, List.isEmpty_iff, List.infix_nil]
  | c :: r => by
    rw [containsSub, Bool.or_eq_true, List.isPrefixOf_iff_prefix,
      containsSub_infix_iff n r, List.infix_cons_iff]

theorem joinSpace_cons_ex (y : List Char) (M : List (List Char)) :
    ∃ t, joinSpace (y :: M) = y ++ t := by
  cases M with
  | nil => exact ⟨[], by simp [joinSpace]⟩
  | cons z zs => exact ⟨' ' :: joinSpace (z :: zs), rfl⟩

/-- Claim C9: `detect_form_document` joins the lowercased texts of the first
20 lines with single spaces, so a keyword split across a line boundary still
matches; a line whose lowercased text ends in "application" followed by one
beginning with "form" makes "application form" a substring of the joined
text scanned by the detector. -/
theorem c9_join_matches_across_lines (l1 l2 : Line) (rest : List Line)
    (p s : List Char)
    (h1 : l1.text.map Char.toLower = p ++ "application".data)
    (h2 : l2.text.map Char.toLower = "form".data ++ s) :
    containsSub "application form".data (first20Text (l1 :: l2 :: rest)) = true := by
  have e : first20Text (l1 :: l2 :: rest) =
      (l1.text.map Char.toLower) ++ ' ' ::
        joinSpace ((l2.text.map Char.toLower) ::
          (rest.take 18).map (fun l => l.text.map Char.toLower)) := rfl
  obtain ⟨t, ht⟩ := joinSpace_cons_ex (l2.text.map Char.toLower)
    ((rest.take 18).map (fun l => l.text.map Char.toLower))
  rw [containsSub_infix_iff]
  refine ⟨p, s ++ t, ?_⟩
  rw [e, ht, h1, h2]
  have : "application form".data =
      "application".data ++ ' ' :: "form".data := by decide
  rw [this]
  simp [List.append_assoc]

theorem c9_join_matches_across_lines_witness :
    (⟨"The Application".data, 12, false, (0, 0, 0, 0), 1⟩ : Line).text.map
      Char.toLower = "the ".data ++ "application".data ∧
    (⟨"Form 10C".data, 12, false, (0, 0, 0, 0), 1⟩ : Line).text.map
      Char.toLower = "form".data ++ " 10c".data ∧
    containsSub "application form".data
      (first20Text
        [⟨"The Application".data, 12, false, (0, 0, 0, 0), 1⟩,
         ⟨"Form 10C".data, 12, false, (0, 0, 0, 0), 1⟩]) = true :=
  ⟨by decide, by decide,
    c9_join_matches_across_lines
      ⟨"The Application".data, 12, false, (0, 0, 0, 0), 1⟩
      ⟨"Form 10C".data, 12, false, (0, 0, 0, 0), 1⟩ [] "the ".data " 10c".data
      (by decide) (by decide)⟩

/-! ### Title extraction: scores over ℚ -/

/-- The specification-level score of a line:
`score = line["size"] + (10 if line["bold"] else 0)`. -/
def lineScore (l : Line) : ℚ :=
  l.size + (if l.bold then 10 else 0)

/-- The exact rational value of a numerator/denominator score pair. -/
def scoreQ (a : ℤ × ℕ) : ℚ :=
  (a.1 : ℚ) / (a.2 : ℚ)

theorem scoreQ_titleScore (l : Line) :
    scoreQ (titleScoreNum l.size l.bold, l.size.den) = lineScore l := by
  have hd : ((l.size.den : ℚ)) ≠ 0 := by
    have := l.size.den_pos
    positivity
  have hsize : (l.size.num : ℚ) / (l.size.den : ℚ) = l.size := l.size.num_div_den
  cases hb : l.bold
  · simp only [scoreQ, titleScoreNum, lineScore, hb, if_false]
    push_cast
    simpa using hsize
  · simp only [scoreQ, titleScoreNum, lineScore, hb, if_true]
    push_cast
    rw [add_div, mul_div_assoc, div_self hd, mul_one, hsize]

theorem scLt_iff (a b : ℤ × ℕ) (ha : 0 < a.2) (hb : 0 < b.2) :
    scLt a b = true ↔ scoreQ a < scoreQ b := by
  have ha' : (0 : ℚ) < (a.2 : ℚ) := by exact_mod_cast ha
  have hb' : (0 : ℚ) < (b.2 : ℚ) := by exact_mod_cast hb
  rw [scLt, decide_eq_true_eq, scoreQ, scoreQ, div_lt_div_iff₀ ha' hb']
  constructor
  · intro h; exact_mod_cast h
  · intro h; exact_mod_cast h

theorem scEq_iff (a b : ℤ × ℕ) (ha : 0 < a.2) (hb : 0 < b.2) :
    scEq a b = true ↔ scoreQ a = scoreQ b := by
  have ha' : ((a.2 : ℚ)) ≠ 0 := by positivity
  have hb' : ((b.2 : ℚ)) ≠ 0 := by positivity
  rw [scEq, decide_eq_true_eq, scoreQ, scoreQ, div_eq_div_iff ha' hb']
  constructor
  · intro h; exact_mod_cast h
  · intro h; exact_mod_cast h

/-- The total preorder in which `bestCandidate` returns a maximum: smaller
score, or equal score and text not lexicographically greater. -/
def candLeQ (p q : (ℤ × ℕ) × List Char) : Prop :=
  scoreQ p.1 < scoreQ q.1 ∨ (scoreQ p.1 = scoreQ q.1 ∧ strLt q.2 p.2 = false)

theorem candLeQ_refl (p : (ℤ × ℕ) × List Char) : candLeQ p p :=
  Or.inr ⟨rfl, strLt_irrefl _⟩

theorem candLeQ_trans {p q r : (ℤ × ℕ) × List Char}
    (h1 : candLeQ p q) (h2 : candLeQ q r) : candLeQ p r := by
  rcases h1 with h1 | ⟨h1, s1⟩ <;> rcases h2 with h2 | ⟨h2, s2⟩
  · exact Or.inl (h1.trans h2)
  · exact Or.inl (h2 ▸ h1)
  · exact Or.inl (h1 ▸ h2)
  · refine Or.inr ⟨h1.trans h2, ?_⟩
    by_contra hc
    rcases strLt_connex q.2 (Bool.not_eq_false _ |>.mp hc) with h' | h'
    · exact absurd h' (by simp [s2])
    · exact absurd h' (by simp [s1])

theorem candLt_true_le {p q : (ℤ × ℕ) × List Char} (hp : 0 < p.1.2)
    (hq : 0 < q.1.2) (h : candLt p q = true) : candLeQ p q := by
  rw [candLt, Bool.or_eq_true, Bool.and_eq_true] at h
  rcases h with h | ⟨he, hs⟩
  · exact Or.inl ((scLt_iff _ _ hp hq).mp h)
  · exact Or.inr ⟨(scEq_iff _ _ hp hq).mp he, strLt_asymm hs⟩

theorem candLt_false_le {p q : (ℤ × ℕ) × List Char} (hp : 0 < p.1.2)
    (hq : 0 < q.1.2) (h : candLt p q = false) : candLeQ q p := by
  rw [candLt, Bool.or_eq_false_iff, Bool.and_eq_false_iff] at h
  obtain ⟨hlt, hrest⟩ := h
  have hnlt : ¬ (scoreQ p.1 < scoreQ q.1) := by
    rw [← scLt_iff p.1 q.1 hp hq, hlt]
    simp
  rcases eq_or_lt_of_le (le_of_not_lt hnlt) with heq | hlt2
  · refine Or.inr ⟨heq, ?_⟩
    rcases hrest with hne | hs
    · exact absurd ((scEq_iff p.1 q.1 hp hq).mpr heq.symm) (by simp [hne])
    · exact hs
  · exact Or.inl hlt2

theorem bestCandidate_mem : ∀ (cs : List ((ℤ × ℕ) × List Char))
    (c : (ℤ × ℕ) × List Char), bestCandidate c cs ∈ c :: cs
  | [], c => by simp [bestCandidate]
  | q :: t, c => by
    have hstep : bestCandidate c (q :: t) =
        bestCandidate (if candLt c q then q else c) t := rfl
    rw [hstep]
    by_cases h : candLt c q = true
    · rw [if_pos h]
      rcases List.mem_cons.mp (bestCandidate_mem t q) with h' | h'
      · simp [h']
      · simp [List.mem_cons_of_mem, h']
    · rw [if_neg h]
      rcases List.mem_cons.mp (bestCandidate_mem t c) with h' | h'
      · simp [h']
      · simp [List.mem_cons_of_mem, h']

theorem bestCandidate_ge : ∀ (cs : List ((ℤ × ℕ) × List Char))
    (c : (ℤ × ℕ) × List Char), (∀ p ∈ c :: cs, 0 < p.1.2) →
    ∀ p ∈ c :: cs, candLeQ p (bestCandidate c cs)
  | [], c, _, p, hp => by
    rcases List.mem_cons.mp hp with rfl | h
    · simpa [bestCandidate] using candLeQ_refl p
    · simp at h
  | q :: t, c, hpos, p, hp => by
    have hstep : bestCandidate c (q :: t) =
        bestCandidate (if candLt c q then q else c) t := rfl
    have hc2mem : (if candLt c q then q else c) ∈ c :: q :: t := by
      split <;> simp
    have hpos2 : ∀ r ∈ (if candLt c q then q else c) :: t, 0 < r.1.2 := by
      intro r hr
      rcases List.mem_cons.mp hr with rfl | hr
      · exact hpos _ hc2mem
      · exact hpos r (by simp [hr])
    have ihbest := bestCandidate_ge t (if candLt c q then q else c) hpos2
    have hc2le : candLeQ (if candLt c q then q else c)
        (bestCandidate (if candLt c q then q else c) t) :=
      ihbest _ (List.mem_cons_self _ _)
    rw [hstep]
    rcases List.mem_cons.mp hp with rfl | hp'
    · by_cases h : candLt p q = true
      · have h1 : candLeQ p (if candLt p q then q else p) := by
          rw [if_pos h]
          exact candLt_true_le (hpos p (by simp)) (hpos q (by simp)) h
        exact candLeQ_trans h1 hc2le
      · rw [if_neg h] at hc2le ⊢
        exact hc2le
    · rcases List.mem_cons.mp hp' with rfl | hp''
      · by_cases h : candLt c p = true
        · rw [if_pos h] at hc2le ⊢
          exact hc2le
        · have h1 : candLeQ p (if candLt c p then p else c) := by
            rw [if_neg h]
            exact candLt_false_le (hpos c (by simp)) (hpos p (by simp))
              (Bool.eq_false_iff.mpr h)
          exact candLeQ_trans h1 hc2le
      · exact ihbest p (List.mem_cons_of_mem _ hp'')

theorem titleCand_some_iff (l : Line) (c : (ℤ × ℕ) × List Char) :
    (if qLtIntQ l.bbox.2.1 200 && decide (5 ≤ l.text.length) then
      some ((titleScoreNum l.size l.bold, l.size.den), l.text) else none) = some c ↔
    (l.bbox.2.1 < (200 : ℚ) ∧ 5 ≤ l.text.length) ∧
      c = ((titleScoreNum l.size l.bold, l.size.den), l.text) := by
  constructor
  · intro hsome
    by_cases h : (qLtIntQ l.bbox.2.1 200 && decide (5 ≤ l.text.length)) = true
    · rw [if_pos h] at hsome
      rw [Bool.and_eq_true, decide_eq_true_eq] at h
      exact ⟨⟨(qLtIntQ_iff _ _).mp h.1, h.2⟩, (Option.some_inj.mp hsome).symm⟩
    · rw [if_neg h] at hsome
      exact absurd hsome (by simp)
  · rintro ⟨⟨hy, hl⟩, rfl⟩
    rw [if_pos]
    rw [Bool.and_eq_true, decide_eq_true_eq]
    exact ⟨(qLtIntQ_iff _ _).mpr hy, hl⟩

theorem mem_titleCandidates (fp : List Line) (c : (ℤ × ℕ) × List Char) :
    c ∈ titleCandidates fp ↔
      ∃ l ∈ fp, (l.bbox.2.1 < (200 : ℚ) ∧ 5 ≤ l.text.length) ∧
        c = ((titleScoreNum l.size l.bold, l.size.den), l.text) := by
  rw [titleCandidates, List.mem_filterMap]
  exact exists_congr (fun l => and_congr_right (fun _ => titleCand_some_iff l c))

theorem titleCandidates_den_pos (fp : List Line) (c : (ℤ × ℕ) × List Char)
    (h : c ∈ titleCandidates fp) : 0 < c.1.2 := by
  obtain ⟨l, _, _, rfl⟩ := (mem_titleCandidates fp c).mp h
  exact l.size.den_pos

/-- Claim C7: for a non-sentinel file name, if some page-1 line lies in the
upper portion (`y0 < 200`) with text length at least 5, the extracted title
is the trimmed text of a qualifying line of maximal score
(`score = size + 10 if bold else size`), ties resolved towards the
lexicographically greatest text (`strLt l.text m.text = false` says no tied
line has text greater than the chosen one); and if no line qualifies the
fallback name is returned. -/
theorem c7_title_max_score (fp : List Line) (fn : List Char)
    (hfn : fn ≠ "file05".data) :
    ((∃ l ∈ fp, l.bbox.2.1 < (200 : ℚ) ∧ 5 ≤ l.text.length) →
      ∃ l ∈ fp, (l.bbox.2.1 < (200 : ℚ) ∧ 5 ≤ l.text.length) ∧
        simple_title_extraction fp fn = pyTrim l.text ∧
        ∀ m ∈ fp, m.bbox.2.1 < (200 : ℚ) → 5 ≤ m.text.length →
          (lineScore m < lineScore l ∨
            (lineScore m = lineScore l ∧ strLt l.text m.text = false))) ∧
    ((∀ l ∈ fp, ¬(l.bbox.2.1 < (200 : ℚ) ∧ 5 ≤ l.text.length)) →
      simple_title_extraction fp fn = fn) := by
  constructor
  · rintro ⟨l0, hl0, hc0⟩
    have hc0' : ((titleScoreNum l0.size l0.bold, l0.size.den), l0.text) ∈
        titleCandidates fp :=
      (mem_titleCandidates fp _).mpr ⟨l0, hl0, hc0, rfl⟩
    obtain ⟨c, cs, hcs⟩ : ∃ c cs, titleCandidates fp = c :: cs := by
      cases h : titleCandidates fp with
      | nil => rw [h] at hc0'; exact absurd hc0' (List.not_mem_nil _)
      | cons c cs => exact ⟨c, cs, rfl⟩
    have hfp : fp ≠ [] := by
      intro h
      rw [h] at hcs
      simp [titleCandidates] at hcs
    have hresult : simple_title_extraction fp fn = pyTrim (bestCandidate c cs).2 := by
      unfold simple_title_extraction
      rw [if_neg hfn, if_neg hfp, hcs]
    have hbmem : bestCandidate c cs ∈ titleCandidates fp := by
      rw [hcs]
      exact bestCandidate_mem cs c
    obtain ⟨l, hlmem, hlcond, hleq⟩ := (mem_titleCandidates fp _).mp hbmem
    refine ⟨l, hlmem, hlcond, ?_, ?_⟩
    · rw [hresult, hleq]
    · intro m hm hy hlen
      have hmc : ((titleScoreNum m.size m.bold, m.size.den), m.text) ∈ c :: cs := by
        rw [← hcs]
        exact (mem_titleCandidates fp _).mpr ⟨m, hm, ⟨hy, hlen⟩, rfl⟩
      have hpos : ∀ p ∈ c :: cs, 0 < p.1.2 := by
        intro p hp
        exact titleCandidates_den_pos fp p (hcs ▸ hp)
      have hle := bestCandidate_ge cs c hpos _ hmc
      rw [hleq] at hle
      rcases hle with hlt | ⟨heq, hs⟩
      · left
        rw [scoreQ_titleScore m, scoreQ_titleScore l] at hlt
        exact hlt
      · right
        rw [scoreQ_titleScore m, scoreQ_titleScore l] at heq
        exact ⟨heq, hs⟩
  · intro hnone
    have hcand : titleCandidates fp = [] := by
      rw [titleCandidates, List.filterMap_eq_nil_iff]
      intro l hl
      have hcond : (qLtIntQ l.bbox.2.1 200 && decide (5 ≤ l.text.length)) = false := by
        rw [Bool.eq_false_iff]
        intro hb
        rw [Bool.and_eq_true, decide_eq_true_eq] at hb
        exact hnone l hl ⟨(qLtIntQ_iff _ _).mp hb.1, hb.2⟩
      simp [hcond]
    unfold simple_title_extraction
    rw [if_neg hfn]
    by_cases hfp : fp = []
    · rw [if_pos hfp]
    · rw [if_neg hfp, hcand]

/-- Two page-1 title candidates with tied score 24: "Alpha Title" (size 24,
not bold) and "Beta Title" (size 14, bold). -/
def titleDoc : List Line :=
  [⟨"Alpha Title".data, 24, false, (0, 100, 612, 120), 1⟩,
   ⟨"Beta Title".data, 14, true, (0, 50, 612, 70), 1⟩]

theorem c7_title_max_score_witness :
    "doc".data ≠ "file05".data ∧
    (∃ l ∈ titleDoc, l.bbox.2.1 < (200 : ℚ) ∧ 5 ≤ l.text.length) ∧
    (∃ l ∈ titleDoc, (l.bbox.2.1 < (200 : ℚ) ∧ 5 ≤ l.text.length) ∧
      simple_title_extraction titleDoc "doc".data = pyTrim l.text ∧
      ∀ m ∈ titleDoc, m.bbox.2.1 < (200 : ℚ) → 5 ≤ m.text.length →
        (lineScore m < lineScore l ∨
          (lineScore m = lineScore l ∧ strLt l.text m.text = false))) :=
  ⟨by decide, by decide,
    (c7_title_max_score titleDoc "doc".data (by decide)).1 (by decide)⟩
